import Mathlib

/-!
Shallow embedding of the Writingway2 generation core: prompt assembly
(buildPrompt in src/generation.js), the streaming read loop of
streamGeneration (same file), and the connection test of saveAISettings
(src/unnamed/part_000, the retry variant of the AI-settings module).

JS strings are modelled as Lean String values.  The JS builtins the code
relies on -- String.prototype.split (on a regex or a character), trim,
slice, indexOf, JSON.parse -- are given executable Lean models with the
same observable behaviour on the character sequences involved; whitespace
is the ASCII portion of the JS \s class.
-/

set_option maxRecDepth 100000

namespace Writingway

/-- ASCII whitespace as matched by the JS regex class \s. -/
def isWsChar (c : Char) : Bool :=
  c == ' ' || c == '\t' || c == '\n' || c == '\r' || c == '\x0b' || c == '\x0c'

/-- Model of JS String.prototype.trim: strip leading and trailing whitespace. -/
def jsTrim (s : String) : String :=
  String.mk (((s.data.dropWhile isWsChar).reverse.dropWhile isWsChar).reverse)

/-- Model of JS String.prototype.slice with a nonnegative start index. -/
def strDrop (s : String) (n : Nat) : String := String.mk (s.data.drop n)

/-- Split a character list at every character satisfying p, keeping empty
segments (the behaviour of JS split on a single-character separator, and
the raw form under the \s+ split below). -/
def splitOnPL (p : Char → Bool) : List Char → List (List Char)
  | [] => [[]]
  | c :: cs =>
    let r := splitOnPL p cs
    if p c then [] :: r
    else
      match r with
      | [] => [[c]]
      | t :: ts => (c :: t) :: ts

/-- Model of JS String.prototype.split(/\s+/): maximal whitespace runs are
separators, and a leading (resp. trailing) separator contributes one empty
leading (resp. trailing) element, exactly as the JS regex split does. -/
def jsSplitWs (l : List Char) : List (List Char) :=
  match l with
  | [] => [[]]
  | c :: cs =>
    (if isWsChar c then [([] : List Char)] else []) ++
      (splitOnPL isWsChar (c :: cs)).filter (fun t => !t.isEmpty) ++
      (if isWsChar ((c :: cs).getLastD ' ') then [([] : List Char)] else [])

/-- Model of JS String.prototype.indexOf: index of the first occurrence of
pat, if any. -/
def listIndexOf (pat : List Char) : List Char → Option Nat
  | [] => if pat.isPrefixOf ([] : List Char) then some 0 else none
  | c :: cs =>
    if pat.isPrefixOf (c :: cs) then some 0
    else (listIndexOf pat cs).map (· + 1)

def strIndexOf (s pat : String) : Option Nat := listIndexOf pat.data s.data

def containsStr (s pat : String) : Bool := (strIndexOf s pat).isSome

/-- The final n elements of a list (JS Array.prototype.slice(-n)). -/
def lastN (n : Nat) (l : List String) : List String := l.drop (l.length - n)

/-- True when the string neither starts nor ends with whitespace. -/
def noEdgeWs (s : String) : Bool :=
  match s.data with
  | [] => true
  | c :: cs => !isWsChar c && !isWsChar ((c :: cs).getLastD ' ')

/-- The spec-side reading of the truncation step: the whitespace-delimited
tokens of the context, that is the maximal non-whitespace runs, with no
empty edge elements. -/
def wsTokensStr (s : String) : List String :=
  ((splitOnPL isWsChar s.data).filter (fun t => !t.isEmpty)).map String.mk

/-! ## Prompt Assembler (buildPrompt, src/generation.js lines 6-62) -/

structure CompendiumEntry where
  id : Option String := none
  title : Option String := none
  body : Option String := none
  description : Option String := none

structure GenerationOptions where
  povCharacter : Option String := none
  tense : Option String := none
  pov : Option String := none
  prosePrompt : Option String := none
  preview : Bool := false
  compendiumEntries : Option (List CompendiumEntry) := none

/-- JS a || b for strings: the empty string is the only falsy string. -/
def jsOrStr (a b : String) : String := if a == "" then b else a

/-- povName: (options.povCharacter && options.povCharacter.trim()) or the
default protagonist. -/
def povNameOf (o : GenerationOptions) : String :=
  let s := o.povCharacter.getD ""
  if s != "" && jsTrim s != "" then jsTrim s else "the protagonist"

/-- tenseText: options.tense === 'present' selects present tense. -/
def tenseTextOf (o : GenerationOptions) : String :=
  if o.tense == some "present" then "present tense" else "past tense"

/-- povText: options.pov || '3rd person limited'. -/
def povTextOf (o : GenerationOptions) : String :=
  jsOrStr (o.pov.getD "") "3rd person limited"

/-- The system prompt: the POV sentence followed by the fixed role text. -/
def systemPromptOf (o : GenerationOptions) : String :=
  "You are a co-author tasked with assisting your partner. You are writing a story from the point of view of "
    ++ povNameOf o ++ " in " ++ tenseTextOf o ++ ", in " ++ povTextOf o
    ++ ". You are a creative writing assistant. The author provides a BEAT (what happens next) and you expand it into vivid, engaging prose. Write 2-3 paragraphs that bring the beat to life. Match the author's tone and style. Use sensory details. Show, don't tell."

/-- contextWords: sceneContext.split(/\s+/).slice(-500).join(' '). -/
def sceneContextWords (s : String) : String :=
  let words := (jsSplitWs s.data).map String.mk
  String.intercalate " " (words.drop (words.length - 500))

/-- contextText: empty for an empty scene context, otherwise the fixed
header followed by the truncated word list. -/
def contextTextOf (s : String) : String :=
  if s == "" then "" else "\n\nCURRENT SCENE SO FAR:\n" ++ sceneContextWords s

/-- proseTemplateText: absent or blank templates contribute nothing; in
preview mode the trimmed template is included bare, otherwise it is
wrapped in the start/end marker lines. -/
def proseTemplateTextOf (o : GenerationOptions) : String :=
  match o.prosePrompt with
  | none => ""
  | some p =>
    if jsTrim p == "" then ""
    else if o.preview then "\n\n" ++ jsTrim p
    else "\n\n--- PROMPT TEMPLATE START ---\n" ++ jsTrim p ++ "\n--- PROMPT TEMPLATE END ---"

/-- Entry title: ce.title || ('entry ' + (ce.id || '')). -/
def entryTitle (ce : CompendiumEntry) : String :=
  jsOrStr (ce.title.getD "") ("entry " ++ ce.id.getD "")

/-- Entry body exactly as written in the source:
(ce.body || ce.body || ce.description || '') || ce.body || ''. -/
def entryBody (ce : CompendiumEntry) : String :=
  let b := ce.body.getD ""
  let d := ce.description.getD ""
  jsOrStr (jsOrStr b (jsOrStr b (jsOrStr d ""))) (jsOrStr b "")

/-- The fallback chain the spec names as intended: body, else description,
else the empty string. -/
def entryBodySpec (ce : CompendiumEntry) : String :=
  let b := ce.body.getD ""
  let d := ce.description.getD ""
  if b != "" then b else if d != "" then d else ""

/-- One rendered reference block. -/
def renderEntry (ce : CompendiumEntry) : String :=
  "\n-- " ++ entryTitle ce ++ " --\n" ++ entryBody ce ++ "\n"

/-- compendiumText: rendered only outside preview mode and only for a
non-empty entry list. -/
def compendiumTextOf (o : GenerationOptions) : String :=
  match o.compendiumEntries with
  | none => ""
  | some entries =>
    if !o.preview && !entries.isEmpty then
      "\n\nCOMPENDIUM REFERENCES:\n" ++ String.join (entries.map renderEntry)
    else ""

/-- The role-delimited prompt before the compendium splice. -/
def basePrompt (beat sceneContext : String) (o : GenerationOptions) : String :=
  "<|im_start|>system\n" ++ systemPromptOf o
    ++ "<|im_end|>\n<|im_start|>user\n" ++ contextTextOf sceneContext
    ++ proseTemplateTextOf o
    ++ "\n\nBEAT TO EXPAND:\n" ++ beat
    ++ "\n\nWrite the next 2-3 paragraphs:<|im_end|>\n<|im_start|>assistant\n"

/-- The splice step: a non-empty compendium block is inserted at the first
occurrence of the beat marker, with a newline after the block. -/
def spliceCompendium (prompt compendiumText : String) : String :=
  if compendiumText == "" then prompt
  else
    match strIndexOf prompt "\n\nBEAT TO EXPAND:" with
    | some i =>
        String.mk (prompt.data.take i) ++ compendiumText ++ "\n"
          ++ String.mk (prompt.data.drop i)
    | none => prompt

/-- buildPrompt(beat, sceneContext, options) from src/generation.js. -/
def buildPrompt (beat sceneContext : String) (o : GenerationOptions) : String :=
  spliceCompendium (basePrompt beat sceneContext o) (compendiumTextOf o)

/-! ## Stream Decoder (streamGeneration read loop, src/generation.js lines 83-112)

The JSON payloads of the protocol are parsed with an executable model of
JSON.parse: a recursive-descent parser over the character list, driven by
a fuel argument larger than the input length.  Numbers are accepted with
the full JSON grammar but carried as their (sign-adjusted) integer part;
the protocol fields the decoder inspects (content, stop) are strings and
booleans, which are modelled exactly. -/

inductive JsonValue where
  | null : JsonValue
  | bool (b : Bool) : JsonValue
  | num (n : Int) : JsonValue
  | str (s : String) : JsonValue
  | arr (xs : List JsonValue) : JsonValue
  | obj (fields : List (String × JsonValue)) : JsonValue

/-- JSON insignificant whitespace. -/
def skipWsJ : List Char → List Char
  | [] => []
  | c :: cs => if c == ' ' || c == '\t' || c == '\n' || c == '\r' then skipWsJ cs else c :: cs

def hexVal (c : Char) : Option Nat :=
  if '0' ≤ c ∧ c ≤ '9' then some (c.toNat - 48)
  else if 'a' ≤ c ∧ c ≤ 'f' then some (c.toNat - 87)
  else if 'A' ≤ c ∧ c ≤ 'F' then some (c.toNat - 55)
  else none

/-- Body of a JSON string after the opening quote, with escape handling. -/
def parseStrAux : Nat → List Char → List Char → Option (String × List Char)
  | 0, _, _ => none
  | fuel + 1, acc, cs =>
    match cs with
    | [] => none
    | '"' :: rest => some (String.mk acc.reverse, rest)
    | '\\' :: rest =>
      match rest with
      | [] => none
      | e :: rest2 =>
        if e == '"' then parseStrAux fuel ('"' :: acc) rest2
        else if e == '\\' then parseStrAux fuel ('\\' :: acc) rest2
        else if e == '/' then parseStrAux fuel ('/' :: acc) rest2
        else if e == 'n' then parseStrAux fuel ('\n' :: acc) rest2
        else if e == 't' then parseStrAux fuel ('\t' :: acc) rest2
        else if e == 'r' then parseStrAux fuel ('\r' :: acc) rest2
        else if e == 'b' then parseStrAux fuel ('\x08' :: acc) rest2
        else if e == 'f' then parseStrAux fuel ('\x0c' :: acc) rest2
        else if e == 'u' then
          match rest2 with
          | h1 :: h2 :: h3 :: h4 :: rest3 =>
            match hexVal h1, hexVal h2, hexVal h3, hexVal h4 with
            | some a, some b, some c, some d =>
                parseStrAux fuel (Char.ofNat (a * 4096 + b * 256 + c * 16 + d) :: acc) rest3
            | _, _, _, _ => none
          | _ => none
        else none
    | c :: rest =>
      if c.toNat < 32 then none else parseStrAux fuel (c :: acc) rest

/-- Consume a run of decimal digits, returning its length and the rest. -/
def parseDigitRun : Nat → Nat → List Char → (Nat × List Char)
  | 0, n, cs => (n, cs)
  | fuel + 1, n, cs =>
    match cs with
    | c :: rest => if c.isDigit then parseDigitRun fuel (n + 1) rest else (n, cs)
    | [] => (n, [])

/-- Digits as a natural number (the run is assumed already delimited). -/
def digitsVal : List Char → Nat → Nat
  | [], acc => acc
  | c :: cs, acc =>
    if c.isDigit then digitsVal cs (acc * 10 + (c.toNat - 48)) else acc

/-- A JSON number: optional minus, an integer part without leading zeros,
optional fraction and exponent.  The value carried is the integer part
with its sign (fraction and exponent are validated and discarded; the
streaming protocol never branches on numeric fields). -/
def parseNum (cs : List Char) : Option (JsonValue × List Char) :=
  let (neg, cs1) := match cs with
    | '-' :: rest => (true, rest)
    | _ => (false, cs)
  let (ilen, cs2) := parseDigitRun cs1.length 0 cs1
  if ilen == 0 then none
  else if ilen > 1 && cs1.headD ' ' == '0' then none
  else
    let ival : Nat := digitsVal (cs1.take ilen) 0
    let (okFrac, cs3) := match cs2 with
      | '.' :: rest =>
        let (flen, r) := parseDigitRun rest.length 0 rest
        (flen != 0, if flen != 0 then r else cs2)
      | _ => (true, cs2)
    if !okFrac then none
    else
      let (okExp, cs4) := match cs3 with
        | 'e' :: rest | 'E' :: rest =>
          let rest2 := match rest with
            | '+' :: r => r
            | '-' :: r => r
            | _ => rest
          let (elen, r) := parseDigitRun rest2.length 0 rest2
          (elen != 0, if elen != 0 then r else cs3)
        | _ => (true, cs3)
      if !okExp then none
      else some (JsonValue.num (if neg then -(ival : Int) else (ival : Int)), cs4)

mutual

/-- A JSON value (after optional leading whitespace). -/
def parseValueAux : Nat → List Char → Option (JsonValue × List Char)
  | 0, _ => none
  | fuel + 1, cs0 =>
    match skipWsJ cs0 with
    | [] => none
    | '{' :: rest =>
      (match skipWsJ rest with
       | '}' :: r2 => some (JsonValue.obj [], r2)
       | r2 => parseMembersAux fuel [] r2)
    | '[' :: rest =>
      (match skipWsJ rest with
       | ']' :: r2 => some (JsonValue.arr [], r2)
       | r2 => parseElemsAux fuel [] r2)
    | '"' :: rest => (parseStrAux (fuel + 1) [] rest).map (fun p => (JsonValue.str p.1, p.2))
    | 't' :: rest =>
      if ['r', 'u', 'e'].isPrefixOf rest then some (JsonValue.bool true, rest.drop 3) else none
    | 'f' :: rest =>
      if ['a', 'l', 's', 'e'].isPrefixOf rest then some (JsonValue.bool false, rest.drop 4) else none
    | 'n' :: rest =>
      if ['u', 'l', 'l'].isPrefixOf rest then some (JsonValue.null, rest.drop 3) else none
    | c :: rest =>
      if c == '-' || c.isDigit then parseNum (c :: rest) else none

/-- Members of a JSON object after the opening brace (non-empty case). -/
def parseMembersAux : Nat → List (String × JsonValue) → List Char →
    Option (JsonValue × List Char)
  | 0, _, _ => none
  | fuel + 1, acc, cs =>
    match cs with
    | '"' :: rest =>
      match parseStrAux (fuel + 1) [] rest with
      | none => none
      | some (key, r1) =>
        match skipWsJ r1 with
        | ':' :: r2 =>
          match parseValueAux fuel r2 with
          | none => none
          | some (v, r3) =>
            match skipWsJ r3 with
            | ',' :: r4 => parseMembersAux fuel ((key, v) :: acc) (skipWsJ r4)
            | '}' :: r4 => some (JsonValue.obj (((key, v) :: acc).reverse), r4)
            | _ => none
        | _ => none
    | _ => none

/-- Elements of a JSON array after the opening bracket (non-empty case). -/
def parseElemsAux : Nat → List JsonValue → List Char → Option (JsonValue × List Char)
  | 0, _, _ => none
  | fuel + 1, acc, cs =>
    match parseValueAux fuel cs with
    | none => none
    | some (v, r1) =>
      match skipWsJ r1 with
      | ',' :: r2 => parseElemsAux fuel (v :: acc) r2
      | ']' :: r2 => some (JsonValue.arr ((v :: acc).reverse), r2)
      | _ => none

end

/-- Model of JSON.parse: a single value with nothing but whitespace after
it; any failure yields none (the JS exception, caught by the decoder). -/
def parseJson (s : String) : Option JsonValue :=
  match parseValueAux (2 * s.data.length + 2) s.data with
  | some (v, rest) => if skipWsJ rest == [] then some v else none
  | none => none

/-- JS truthiness of a parsed JSON value (objects and arrays are truthy,
the empty string, zero, false and null are falsy). -/
def jsTruthy : JsonValue → Bool
  | JsonValue.null => false
  | JsonValue.bool b => b
  | JsonValue.num n => n != 0
  | JsonValue.str s => s != ""
  | JsonValue.arr _ => true
  | JsonValue.obj _ => true

/-- JS property access data[key] on a parsed value: the last binding wins
(as in JSON.parse for duplicate keys); non-objects have no fields. -/
def jGet (j : JsonValue) (key : String) : Option JsonValue :=
  match j with
  | JsonValue.obj fields =>
      fields.foldl (fun acc kv => if kv.1 == key then some kv.2 else acc) none
  | _ => none

/-- Events the decoder delivers: onToken calls carry the content value;
stop marks early termination. -/
inductive StreamEvent where
  | content (v : JsonValue) : StreamEvent
  | stop : StreamEvent

/-- The onToken call a well-formed frame produces, if any. -/
def contentEventsOf (j : JsonValue) : List StreamEvent :=
  match jGet j "content" with
  | some v => if jsTruthy v then [StreamEvent.content v] else []
  | none => []

/-- Processing of one complete line: only lines with the literal prefix
"data: " are frames; a parse failure is silently ignored; a truthy
content field fires onToken; a truthy stop field halts consumption. -/
def procLine (line : String) : List StreamEvent × Bool :=
  if "data: ".data.isPrefixOf line.data then
    match parseJson (strDrop line 6) with
    | some j =>
      match jGet j "stop" with
      | some v =>
        if jsTruthy v then (contentEventsOf j ++ [StreamEvent.stop], true)
        else (contentEventsOf j, false)
      | none => (contentEventsOf j, false)
    | none => ([], false)
  else ([], false)

/-- Processing of the complete lines of one chunk, stopping at a halt. -/
def processLines : List String → List StreamEvent × Bool
  | [] => ([], false)
  | l :: ls =>
    if (procLine l).2 then ((procLine l).1, true)
    else ((procLine l).1 ++ (processLines ls).1, (processLines ls).2)

/-- One buffering step: the pending buffer and the arriving chunk are
concatenated and split on newlines (the model of buffer.split followed by
the pop of the final segment keeps all segments; the callers below take
dropLast as the complete lines and the last segment as the new buffer). -/
def chunkLines (buf c : String) : List String :=
  (splitOnPL (fun ch => ch == '\n') (buf ++ c).data).map String.mk

/-- The read loop: each chunk is appended to the pending buffer, the
buffer is split on newlines, the final (possibly incomplete) segment
becomes the new buffer, and the complete lines are processed; a stop
frame ends consumption, discarding the buffer and all later chunks, and
stream end discards the final unterminated buffer. -/
def decodeLoop : String → List String → List StreamEvent
  | _, [] => []
  | buf, c :: cs =>
    if (processLines (chunkLines buf c).dropLast).2 then
      (processLines (chunkLines buf c).dropLast).1
    else
      (processLines (chunkLines buf c).dropLast).1
        ++ decodeLoop ((chunkLines buf c).getLastD "") cs

/-- The full decode of a chunk sequence, starting from an empty buffer. -/
def decodeChunks (chunks : List String) : List StreamEvent :=
  decodeLoop "" chunks

/-! ## Connection Lifecycle Manager (saveAISettings, src/unnamed/part_000 lines 126-229)

The embedding follows the retry variant of the AI-settings module
(src/unnamed/part_000); src/src/modules/ai-settings.js carries an earlier
revision of the same function whose local branch performs a single probe
and reports no elapsed time.  Network probes are modelled by an oracle
from the attempt number (1-based, as in the source, which increments the
counter before each fetch) to success; a false answer covers both a
failed response and a probe timeout.  Durable settings storage
(localStorage under the writingway:aiSettings key) is modelled as an
optional stored record. -/

/-- The app fields saveAISettings reads.  The numeric sampling parameters
are carried opaquely; the function never branches on them. -/
structure AppState where
  aiMode : String
  aiProvider : String
  aiApiKey : String
  aiModel : String
  aiEndpoint : String
  temperature : Int
  maxTokens : Int
  useProviderDefaults : Bool
  forceNonStreaming : Bool

/-- The record serialized into settings storage. -/
structure StoredSettings where
  mode : String
  provider : String
  apiKey : String
  model : String
  endpoint : String
  temperature : Int
  maxTokens : Int
  useProviderDefaults : Bool
  forceNonStreaming : Bool

/-- The settings object built at the top of saveAISettings. -/
def resolveSettings (app : AppState) : StoredSettings where
  mode := app.aiMode
  provider := app.aiProvider
  apiKey := app.aiApiKey
  model := app.aiModel
  endpoint := jsOrStr app.aiEndpoint (if app.aiMode == "local" then "http://localhost:8080" else "")
  temperature := app.temperature
  maxTokens := app.maxTokens
  useProviderDefaults := app.useProviderDefaults
  forceNonStreaming := app.forceNonStreaming

/-- maxRetries in the source: up to 60 probes, about 3 minutes. -/
def localMaxRetries : Nat := 60

/-- retryDelay in the source: 3000 ms between attempts. -/
def localRetryDelayMs : Nat := 3000

/-- The while loop of the local connection test: fuel is the number of
attempts still allowed, the second argument the attempts already made.
Returns the connected flag and the final value of the attempt counter. -/
def healthLoop (probe : Nat → Bool) : Nat → Nat → Bool × Nat
  | 0, attempt => (false, attempt)
  | fuel + 1, attempt =>
    if probe (attempt + 1) then (true, attempt + 1)
    else healthLoop probe fuel (attempt + 1)

/-- Outcome of one local test cycle: the resulting status field, the
final attempt counter, and the elapsed-seconds figure interpolated into
the user-facing message (success alert or thrown error). -/
structure TestOutcome where
  status : String
  attempts : Nat
  elapsedSeconds : Nat

/-- The local branch of the connection test: probe until success or until
the attempt counter reaches the maximum; the reported elapsed time is
floor(attempt * retryDelay / 1000). -/
def testLocalConnection (probe : Nat → Bool) (maxRetries retryDelayMs : Nat) : TestOutcome where
  status := if (healthLoop probe maxRetries 0).1 then "ready" else "error"
  attempts := (healthLoop probe maxRetries 0).2
  elapsedSeconds := (healthLoop probe maxRetries 0).2 * retryDelayMs / 1000

/-- saveAISettings: the settings record is written to storage first, then
the connection test runs; the function returns the storage contents after
the call and the resulting status ("ready" or "error"). -/
def saveAISettings (app : AppState) (probe : Nat → Bool)
    (_storage : Option StoredSettings) : Option StoredSettings × String :=
  let stored := some (resolveSettings app)
  if app.aiMode == "local" then
    (stored, (testLocalConnection probe localMaxRetries localRetryDelayMs).status)
  else
    if app.aiApiKey == "" then (stored, "error")
    else if app.aiModel == "" then (stored, "error")
    else (stored, "ready")

/-! ## Concrete values used by the claim instances -/

/-- Preview-mode options carrying both a template and a compendium entry. -/
def previewOpts : GenerationOptions where
  prosePrompt := some "Use lyrical prose."
  preview := true
  compendiumEntries := some [{ id := some "1", title := some "Castle", body := some "A ruined keep." }]

/-- Non-preview options carrying one compendium entry. -/
def nonPreviewOpts : GenerationOptions where
  compendiumEntries := some [{ title := some "T", body := some "B" }]

/-- A concrete app configuration in local mode with no endpoint override. -/
def app0 : AppState where
  aiMode := "local"
  aiProvider := "anthropic"
  aiApiKey := ""
  aiModel := ""
  aiEndpoint := ""
  temperature := 1
  maxTokens := 300
  useProviderDefaults := false
  forceNonStreaming := false

/-! ## General lemmas about the embedding -/

theorem strData_append (a b : String) : (a ++ b).data = a.data ++ b.data := by
  cases a; cases b; rfl

theorem strExt (a b : String) (h : a.data = b.data) : a = b :=
  congrArg String.mk h

/-! ## C1: determinism of the Prompt Assembler -/

/-- C1: buildPrompt is a pure function, so any two calls that receive
equal beat, sceneContext and options values return byte-identical prompt
strings. -/
theorem buildPrompt_deterministic (b1 b2 s1 s2 : String) (o1 o2 : GenerationOptions)
    (hb : b1 = b2) (hs : s1 = s2) (ho : o1 = o2) :
    buildPrompt b1 s1 o1 = buildPrompt b2 s2 o2 := by
  rw [hb, hs, ho]

/-- Witness for C1 at a concrete input. -/
theorem buildPrompt_deterministic_witness :
    buildPrompt "She opens the door." "" {} = buildPrompt "She opens the door." "" {} :=
  buildPrompt_deterministic _ _ _ _ _ _ rfl rfl rfl

/-! ## C8: the compendium body fallback chain -/

/-- C8: the rendered body of a compendium entry is its body field when
non-empty, else its description field when non-empty, else the empty
string -- the duplicated fallback chain in the source is extensionally
the intended body-then-description-then-empty precedence. -/
theorem entryBody_eq_spec (ce : CompendiumEntry) : entryBody ce = entryBodySpec ce := by
  unfold entryBody entryBodySpec jsOrStr
  by_cases hb : ce.body.getD "" = "" <;> by_cases hd : ce.description.getD "" = "" <;>
    simp [hb, hd]

/-! ## C4: reassembly of a frame split across chunk boundaries -/

/-- C4: for the chunk sequence that splits one content frame across the
chunk boundary, the decoder fires the content callback exactly once, with
the reassembled text Hello. -/
theorem decodeChunks_split_frame :
    decodeChunks ["data: \x7b\"content\":\"He", "llo\"\x7d\n"]
      = [StreamEvent.content (JsonValue.str "Hello")] := rfl

/-! ## C9: the bounded local connection test -/

theorem healthLoop_attempts_le (probe : Nat → Bool) :
    ∀ fuel a, (healthLoop probe fuel a).2 ≤ a + fuel := by
  intro fuel
  induction fuel with
  | zero => intro a; simp [healthLoop]
  | succ n ih =>
    intro a
    cases h : probe (a + 1) with
    | true => simp [healthLoop, h]
    | false =>
      simp only [healthLoop, h]
      have := ih (a + 1)
      simp only [Bool.false_eq_true, if_false]
      omega

theorem healthLoop_all_fail (probe : Nat → Bool) :
    ∀ fuel a, (∀ k, a < k → k ≤ a + fuel → probe k = false) →
      healthLoop probe fuel a = (false, a + fuel) := by
  intro fuel
  induction fuel with
  | zero => intro a _; simp [healthLoop]
  | succ n ih =>
    intro a h
    have h1 : probe (a + 1) = false := h (a + 1) (by omega) (by omega)
    have h2 := ih (a + 1) (fun k hk1 hk2 => h k (by omega) (by omega))
    have h3 : a + (n + 1) = (a + 1) + n := by omega
    rw [h3]
    simp [healthLoop, h1, h2]

theorem healthLoop_success (probe : Nat → Bool) :
    ∀ fuel a k, a < k → k ≤ a + fuel → probe k = true →
      (∀ j, a < j → j < k → probe j = false) →
      healthLoop probe fuel a = (true, k) := by
  intro fuel
  induction fuel with
  | zero => intro a k h1 h2 _ _; omega
  | succ n ih =>
    intro a k h1 h2 h3 h4
    by_cases hk : k = a + 1
    · subst hk
      simp [healthLoop, h3]
    · have hj : probe (a + 1) = false := h4 (a + 1) (by omega) (by omega)
      simp only [healthLoop, hj, if_false]
      exact ih (a + 1) k (by omega) (by omega) h3 (fun j hj1 hj2 => h4 j (by omega) hj2)

/-- C9: the local connection test probes at most the configured maximum
number of attempts; when every probe fails it ends with the error status
after exactly the maximum number of attempts, reporting the elapsed time
floor(attempts * delay / 1000); when the first success is attempt k it
ends with the ready status after exactly k attempts, performing no
further probes. -/
theorem testLocalConnection_attempt_budget (probe : Nat → Bool) (maxR delay : Nat) :
    (testLocalConnection probe maxR delay).attempts ≤ maxR ∧
    ((∀ k, 1 ≤ k → k ≤ maxR → probe k = false) →
      (testLocalConnection probe maxR delay).status = "error" ∧
      (testLocalConnection probe maxR delay).attempts = maxR ∧
      (testLocalConnection probe maxR delay).elapsedSeconds = maxR * delay / 1000) ∧
    (∀ k, 1 ≤ k → k ≤ maxR → probe k = true →
      (∀ j, 1 ≤ j → j < k → probe j = false) →
      (testLocalConnection probe maxR delay).status = "ready" ∧
      (testLocalConnection probe maxR delay).attempts = k) := by
  refine ⟨?_, ?_, ?_⟩
  · have := healthLoop_attempts_le probe maxR 0
    simp only [testLocalConnection]
    omega

  · intro h
    have h2 := healthLoop_all_fail probe maxR 0 (fun k hk1 hk2 => h k (by omega) (by omega))
    simp [testLocalConnection, h2]
  · intro k hk1 hk2 hk3 hk4
    have h2 := healthLoop_success probe maxR 0 k (by omega) (by omega) hk3
      (fun j hj1 hj2 => hk4 j (by omega) hj2)
    simp [testLocalConnection, h2]

/-- Witness for C9: a probe succeeding on attempt 3 of a 5-attempt budget
reaches ready after 3 attempts; an always-failing probe exhausts the
60-attempt budget and reports 180 elapsed seconds with the error
status. -/
theorem testLocalConnection_attempt_budget_witness :
    (testLocalConnection (fun k => decide (k = 3)) 5 3000).status = "ready" ∧
    (testLocalConnection (fun k => decide (k = 3)) 5 3000).attempts = 3 ∧
    (testLocalConnection (fun _ => false) 60 3000).status = "error" ∧
    (testLocalConnection (fun _ => false) 60 3000).attempts = 60 ∧
    (testLocalConnection (fun _ => false) 60 3000).elapsedSeconds = 180 := by
  have hready := (testLocalConnection_attempt_budget (fun k => decide (k = 3)) 5 3000).2.2
    3 (by decide) (by decide) (by decide)
    (fun j hj1 hj2 => by simp only [decide_eq_false_iff_not]; omega)
  have herr := (testLocalConnection_attempt_budget (fun _ => false) 60 3000).2.1
    (fun k hk1 hk2 => rfl)
  refine ⟨hready.1, hready.2, herr.1, herr.2.1, ?_⟩
  rw [herr.2.2]

/-! ## C10: settings persistence versus test outcome -/

/-- C10 counterexample: in local mode with an unreachable server the test
cycle ends with the error status, yet the settings record has been
written to the previously empty storage -- persistence happens before
the connection test, not only on success. -/
theorem saveAISettings_error_still_writes :
    (saveAISettings app0 (fun _ => false) none).2 = "error" ∧
    (saveAISettings app0 (fun _ => false) none).1 = some (resolveSettings app0) ∧
    some (resolveSettings app0) ≠ none := by
  refine ⟨rfl, rfl, ?_⟩
  simp

/-- C10 amended: saveAISettings writes the resolved configuration to
settings storage unconditionally, before the connection test; after any
test cycle -- including one that ends with the error status -- storage
holds the newly resolved configuration, regardless of what it held
before. -/
theorem saveAISettings_always_persists (app : AppState) (probe : Nat → Bool)
    (storage : Option StoredSettings) :
    (saveAISettings app probe storage).1 = some (resolveSettings app) := by
  unfold saveAISettings
  by_cases h1 : (app.aiMode == "local") = true
  · simp [h1]
  · simp only [h1, if_false]
    by_cases h2 : (app.aiApiKey == "") = true
    · simp [h2]
    · simp only [h2, if_false]
      by_cases h3 : (app.aiModel == "") = true
      · simp [h3]
      · simp [h3]

/-! ## C2: scene-context truncation to the last 500 tokens -/

/-- C2 counterexample: for the non-empty scene context consisting of a
space followed by the letter a, the context block is the header followed
by a space and the letter (the JS whitespace split emits an empty leading
element), not the header followed by the bare token -- so the block does
not consist of exactly the whitespace-delimited tokens rejoined with
single spaces. -/
theorem contextText_leading_ws_counterexample :
    ¬ (contextTextOf " a"
        = "\n\nCURRENT SCENE SO FAR:\n"
          ++ String.intercalate " " (lastN 500 (wsTokensStr " a"))) := by
  decide

/-- C2 amended: for every non-empty scene context that neither begins nor
ends with whitespace, the context block consists of the fixed header
followed by exactly the final min(n, 500) whitespace-delimited tokens in
original order, rejoined with single spaces.  The edge-whitespace
restriction is forced by the counterexample above: there the empty
leading element of the JS split survives slice(-500) and join, so that
short context's block text differs from its rejoined tokens. -/
theorem contextText_last_tokens (s : String) (h0 : s ≠ "") (hedge : noEdgeWs s = true) :
    contextTextOf s
      = "\n\nCURRENT SCENE SO FAR:\n"
        ++ String.intercalate " " (lastN 500 (wsTokensStr s)) := by
  have hd : s.data ≠ [] := by
    intro h
    exact h0 (strExt s "" h)
  obtain ⟨c, cs, hcs⟩ : ∃ c cs, s.data = c :: cs := by
    cases hcase : s.data with
    | nil => exact absurd hcase hd
    | cons c cs => exact ⟨c, cs, rfl⟩
  have hedge2 : (!isWsChar c && !isWsChar ((c :: cs).getLastD ' ')) = true := by
    have h := hedge
    unfold noEdgeWs at h
    rw [hcs] at h
    exact h
  have h1 : isWsChar c = false := by
    cases hx : isWsChar c
    · rfl
    · rw [hx] at hedge2; simp at hedge2
  have h2 : isWsChar ((c :: cs).getLastD ' ') = false := by
    cases hx : isWsChar ((c :: cs).getLastD ' ')
    · rfl
    · rw [hx] at hedge2; simp at hedge2
  have hsplit : jsSplitWs s.data
      = (splitOnPL isWsChar s.data).filter (fun t => !t.isEmpty) := by
    rw [hcs]
    show ((if isWsChar c = true then [([] : List Char)] else []) ++
          (splitOnPL isWsChar (c :: cs)).filter (fun t => !t.isEmpty) ++
          (if isWsChar ((c :: cs).getLastD ' ') = true then [([] : List Char)] else []))
        = (splitOnPL isWsChar (c :: cs)).filter (fun t => !t.isEmpty)
    rw [h1, h2]
    simp
  have hbeq : (s == "") = false := by
    simp only [beq_eq_false_iff_ne, ne_eq]
    exact h0
  unfold contextTextOf sceneContextWords
  rw [hbeq]
  simp only [Bool.false_eq_true, if_false]
  rw [hsplit]
  rfl

/-- Witness for C2 at a concrete three-token context. -/
theorem contextText_last_tokens_witness :
    ("ma lu to" ≠ "") ∧ noEdgeWs "ma lu to" = true ∧
    contextTextOf "ma lu to"
      = "\n\nCURRENT SCENE SO FAR:\n"
        ++ String.intercalate " " (lastN 500 (wsTokensStr "ma lu to")) :=
  ⟨by decide, by decide, contextText_last_tokens "ma lu to" (by decide) (by decide)⟩

/-! ## C5: malformed frames are skipped silently -/

theorem processLines_cons (l : String) (ls : List String) :
    processLines (l :: ls)
      = if (procLine l).2 then ((procLine l).1, true)
        else ((procLine l).1 ++ (processLines ls).1, (processLines ls).2) := rfl

theorem procLine_malformed (l : String)
    (hp : "data: ".data.isPrefixOf l.data = true)
    (hj : parseJson (strDrop l 6) = none) : procLine l = ([], false) := by
  unfold procLine
  rw [hp, hj]
  simp

/-- C5: a frame with the data prefix whose remainder fails to parse as
JSON contributes no events, raises no error, and leaves the processing of
every surrounding frame unchanged: deleting the malformed line from the
line sequence does not change the result. -/
theorem processLines_skips_malformed (pre post : List String) (l : String)
    (hp : "data: ".data.isPrefixOf l.data = true)
    (hj : parseJson (strDrop l 6) = none) :
    processLines (pre ++ l :: post) = processLines (pre ++ post) := by
  induction pre with
  | nil =>
    simp only [List.nil_append]
    rw [processLines_cons, procLine_malformed l hp hj]
    simp
  | cons h t ih =>
    simp only [List.cons_append]
    rw [processLines_cons, processLines_cons, ih]

/-- Witness for C5: the malformed frame between two well-formed content
frames is skipped, leaving the surrounding frames untouched. -/
theorem processLines_skips_malformed_witness :
    ("data: ".data.isPrefixOf "data: \x7bnot json\x7d".data = true) ∧
    (parseJson (strDrop "data: \x7bnot json\x7d" 6) = none) ∧
    processLines
        ["data: \x7b\"content\":\"a\"\x7d", "data: \x7bnot json\x7d",
          "data: \x7b\"content\":\"b\"\x7d"]
      = processLines
          ["data: \x7b\"content\":\"a\"\x7d", "data: \x7b\"content\":\"b\"\x7d"] :=
  ⟨by decide, rfl,
    processLines_skips_malformed ["data: \x7b\"content\":\"a\"\x7d"]
      ["data: \x7b\"content\":\"b\"\x7d"] "data: \x7bnot json\x7d" (by decide) rfl⟩

/-! ## C3: a stop frame terminates consumption -/

theorem contentEventsOf_no_stop (j : JsonValue) :
    StreamEvent.stop ∉ contentEventsOf j := by
  unfold contentEventsOf
  split
  · split
    · simp
    · simp
  · simp

theorem procLine_shape (l : String) :
    ((procLine l).2 = true →
      ∃ pre, (procLine l).1 = pre ++ [StreamEvent.stop] ∧ StreamEvent.stop ∉ pre) ∧
    ((procLine l).2 = false → StreamEvent.stop ∉ (procLine l).1) := by
  unfold procLine
  repeat' split
  all_goals constructor
  all_goals intro h
  all_goals first
    | exact ⟨_, rfl, contentEventsOf_no_stop _⟩
    | exact contentEventsOf_no_stop _
    | exact List.not_mem_nil _
    | simp at h

theorem processLines_shape (ls : List String) :
    ((processLines ls).2 = true →
      ∃ pre, (processLines ls).1 = pre ++ [StreamEvent.stop] ∧ StreamEvent.stop ∉ pre) ∧
    ((processLines ls).2 = false → StreamEvent.stop ∉ (processLines ls).1) := by
  induction ls with
  | nil => simp [processLines]
  | cons l t ih =>
    rw [processLines_cons]
    cases hh : (procLine l).2 with
    | true =>
      simp only [hh, eq_self_iff_true, if_true]
      refine ⟨fun _ => ?_, fun h2 => absurd h2 (by decide)⟩
      exact (procLine_shape l).1 hh
    | false =>
      have hne : ¬((false : Bool) = true) := by decide
      simp only [hh, if_neg hne]
      refine ⟨fun h2 => ?_, fun h2 => ?_⟩
      · obtain ⟨pre, hpre, hmem⟩ := ih.1 h2
        refine ⟨(procLine l).1 ++ pre, ?_, ?_⟩
        · show (procLine l).1 ++ (processLines t).1
            = (procLine l).1 ++ pre ++ [StreamEvent.stop]
          rw [hpre, List.append_assoc]
        · intro hmem2
          rcases List.mem_append.mp hmem2 with h3 | h3
          · exact (procLine_shape l).2 hh h3
          · exact hmem h3
      · intro hmem2
        rcases List.mem_append.mp hmem2 with h3 | h3
        · exact (procLine_shape l).2 hh h3
        · exact ih.2 h2 h3

theorem decodeLoop_cons (buf c : String) (cs : List String) :
    decodeLoop buf (c :: cs)
      = if (processLines (chunkLines buf c).dropLast).2 then
          (processLines (chunkLines buf c).dropLast).1
        else
          (processLines (chunkLines buf c).dropLast).1
            ++ decodeLoop ((chunkLines buf c).getLastD "") cs := rfl

theorem decodeLoop_stop_shape :
    ∀ (cs : List String) (buf : String), StreamEvent.stop ∈ decodeLoop buf cs →
      ∃ pre, decodeLoop buf cs = pre ++ [StreamEvent.stop] ∧ StreamEvent.stop ∉ pre := by
  intro cs
  induction cs with
  | nil => intro buf h; simp [decodeLoop] at h
  | cons c t ih =>
    intro buf h
    rw [decodeLoop_cons] at h ⊢
    cases hh : (processLines (chunkLines buf c).dropLast).2 with
    | true =>
      simp only [hh, eq_self_iff_true, if_true] at h ⊢
      exact (processLines_shape _).1 hh
    | false =>
      have hne : ¬((false : Bool) = true) := by decide
      simp only [hh, if_neg hne] at h ⊢
      rcases List.mem_append.mp h with h3 | h3
      · exact absurd h3 ((processLines_shape _).2 hh)
      · obtain ⟨pre, hpre, hmem⟩ := ih _ h3
        refine ⟨(processLines (chunkLines buf c).dropLast).1 ++ pre, ?_, ?_⟩
        · rw [hpre, List.append_assoc]
        · intro hx
          rcases List.mem_append.mp hx with h4 | h4
          · exact (processLines_shape _).2 hh h4
          · exact hmem h4

theorem decodeLoop_extend :
    ∀ (cs : List String) (buf : String) (extra : List String),
      StreamEvent.stop ∈ decodeLoop buf cs →
      decodeLoop buf (cs ++ extra) = decodeLoop buf cs := by
  intro cs
  induction cs with
  | nil => intro buf extra h; simp [decodeLoop] at h
  | cons c t ih =>
    intro buf extra h
    rw [List.cons_append, decodeLoop_cons, decodeLoop_cons]
    cases hh : (processLines (chunkLines buf c).dropLast).2 with
    | true => simp only [hh, eq_self_iff_true, if_true]
    | false =>
      have hne : ¬((false : Bool) = true) := by decide
      simp only [hh, if_neg hne]
      rw [decodeLoop_cons] at h
      simp only [hh, if_neg hne] at h
      rcases List.mem_append.mp h with h3 | h3
      · exact absurd h3 ((processLines_shape _).2 hh)
      · rw [ih _ extra h3]

/-- C3: once a stop frame is decoded, consumption terminates: the stop
event is the final event delivered, it is delivered exactly once, and
appending any further chunks to the stream changes nothing -- no event
from later bytes ever reaches the caller. -/
theorem decodeChunks_stop_terminal (chunks : List String)
    (h : StreamEvent.stop ∈ decodeChunks chunks) :
    (∃ pre, decodeChunks chunks = pre ++ [StreamEvent.stop] ∧ StreamEvent.stop ∉ pre) ∧
    (∀ extra, decodeChunks (chunks ++ extra) = decodeChunks chunks) :=
  ⟨decodeLoop_stop_shape chunks "" h, fun extra => decodeLoop_extend chunks "" extra h⟩

/-- Witness for C3: a chunk carrying a stop frame followed by a content
frame, with a further chunk behind it. -/
theorem decodeChunks_stop_terminal_witness :
    StreamEvent.stop
        ∈ decodeChunks ["data: \x7b\"stop\":true\x7d\ndata: \x7b\"content\":\"x\"\x7d\n"] ∧
    ((∃ pre, decodeChunks ["data: \x7b\"stop\":true\x7d\ndata: \x7b\"content\":\"x\"\x7d\n"]
          = pre ++ [StreamEvent.stop] ∧ StreamEvent.stop ∉ pre) ∧
      (∀ extra, decodeChunks (["data: \x7b\"stop\":true\x7d\ndata: \x7b\"content\":\"x\"\x7d\n"] ++ extra)
          = decodeChunks ["data: \x7b\"stop\":true\x7d\ndata: \x7b\"content\":\"x\"\x7d\n"])) := by
  have he : decodeChunks ["data: \x7b\"stop\":true\x7d\ndata: \x7b\"content\":\"x\"\x7d\n"]
      = [StreamEvent.stop] := rfl
  have hm : StreamEvent.stop
      ∈ decodeChunks ["data: \x7b\"stop\":true\x7d\ndata: \x7b\"content\":\"x\"\x7d\n"] := by
    rw [he]
    exact List.mem_singleton_self _
  exact ⟨hm, decodeChunks_stop_terminal _ hm⟩

/-! ## C6: preview mode adds no reference material and no markers -/

/-- C6 counterexample: with preview set, a non-empty compendium entry
list and a template supplied, a beat that itself contains the header text
makes the assembled prompt contain the string COMPENDIUM REFERENCES --
the literal absence claim fails for caller-supplied text, even though the
assembler adds nothing. -/
theorem buildPrompt_preview_header_counterexample :
    previewOpts.preview = true ∧
    (previewOpts.compendiumEntries.getD []).isEmpty = false ∧
    previewOpts.prosePrompt.isSome = true ∧
    containsStr (buildPrompt "COMPENDIUM REFERENCES:" "" previewOpts)
      "COMPENDIUM REFERENCES" = true := by
  refine ⟨rfl, rfl, rfl, ?_⟩
  decide

/-- C6 amended: in preview mode the assembler itself contributes no
compendium material and no template markers: the assembled prompt is
independent of the compendiumEntries option (so no supplied entry body
and no header block is added), and it is exactly the plain composition in
which the template appears bare, without start or end marker lines; the
literal strings can still appear when the caller-supplied beat, context
or template text carries them. -/
theorem buildPrompt_preview_plain (beat sc : String) (o : GenerationOptions)
    (hp : o.preview = true) :
    buildPrompt beat sc o = buildPrompt beat sc { o with compendiumEntries := none } ∧
    ∃ tb, (tb = "" ∨ tb = "\n\n" ++ jsTrim (o.prosePrompt.getD "")) ∧
      buildPrompt beat sc o
        = "<|im_start|>system\n" ++ systemPromptOf o ++ "<|im_end|>\n<|im_start|>user\n"
          ++ contextTextOf sc ++ tb ++ "\n\nBEAT TO EXPAND:\n" ++ beat
          ++ "\n\nWrite the next 2-3 paragraphs:<|im_end|>\n<|im_start|>assistant\n" := by
  have hcomp : compendiumTextOf o = "" := by
    unfold compendiumTextOf
    cases o.compendiumEntries with
    | none => rfl
    | some es => simp [hp]
  have hbase : buildPrompt beat sc o = basePrompt beat sc o := by
    unfold buildPrompt
    rw [hcomp]
    rfl
  constructor
  · rw [hbase]
    rfl
  · refine ⟨proseTemplateTextOf o, ?_, ?_⟩
    · unfold proseTemplateTextOf
      cases o.prosePrompt with
      | none => exact Or.inl rfl
      | some p =>
        cases ht : (jsTrim p == "") with
        | true => simp [ht]
        | false => simp [ht, hp]
    · rw [hbase]
      rfl

/-- Witness for C6 at the concrete preview options. -/
theorem buildPrompt_preview_plain_witness :
    previewOpts.preview = true ∧
    (buildPrompt "b" "ctx" previewOpts
        = buildPrompt "b" "ctx" { previewOpts with compendiumEntries := none } ∧
      ∃ tb, (tb = "" ∨ tb = "\n\n" ++ jsTrim (previewOpts.prosePrompt.getD "")) ∧
        buildPrompt "b" "ctx" previewOpts
          = "<|im_start|>system\n" ++ systemPromptOf previewOpts
            ++ "<|im_end|>\n<|im_start|>user\n" ++ contextTextOf "ctx" ++ tb
            ++ "\n\nBEAT TO EXPAND:\n" ++ "b"
            ++ "\n\nWrite the next 2-3 paragraphs:<|im_end|>\n<|im_start|>assistant\n") :=
  ⟨rfl, buildPrompt_preview_plain "b" "ctx" previewOpts rfl⟩

/-! ## C7: the compendium block precedes the beat instruction -/

theorem strData_mk (l : List Char) : (String.mk l).data = l := rfl

theorem listIndexOf_cons (pat : List Char) (c : Char) (cs : List Char) :
    listIndexOf pat (c :: cs)
      = if pat.isPrefixOf (c :: cs) then some 0
        else (listIndexOf pat cs).map (· + 1) := rfl

theorem listIndexOf_of_isPrefixOf (pat l : List Char) (h : pat.isPrefixOf l = true) :
    listIndexOf pat l = some 0 := by
  cases l with
  | nil => simp [listIndexOf, h]
  | cons c cs => simp [listIndexOf_cons, h]

theorem listIndexOf_append_found (pat b : List Char) :
    ∀ a : List Char, ∃ i, listIndexOf pat (a ++ pat ++ b) = some i ∧
      (a ++ pat ++ b).drop i = a.drop i ++ pat ++ b := by
  intro a
  induction a with
  | nil =>
    refine ⟨0, ?_, by simp⟩
    apply listIndexOf_of_isPrefixOf
    rw [List.isPrefixOf_iff_prefix]
    simp
  | cons x t ih =>
    have hcons : (x :: t) ++ pat ++ b = x :: (t ++ pat ++ b) := by simp
    by_cases hx : pat.isPrefixOf (x :: (t ++ pat ++ b)) = true
    · refine ⟨0, ?_, by simp⟩
      rw [hcons]
      exact listIndexOf_of_isPrefixOf _ _ hx
    · obtain ⟨i, hi, hdrop⟩ := ih
      refine ⟨i + 1, ?_, ?_⟩
      · rw [hcons, listIndexOf_cons, if_neg hx, hi]
        rfl
      · rw [hcons, List.drop_succ_cons, List.drop_succ_cons]
        exact hdrop

/-- C7: in non-preview mode with a non-empty entry list, the assembled
prompt splices the rendered COMPENDIUM REFERENCES block strictly before
the beat-instruction line: the prompt decomposes as a prefix, then the
compendium block, then material that still carries the BEAT TO EXPAND
line with the beat and the closing of the user turn after it. -/
theorem buildPrompt_compendium_before_beat (beat sc : String) (o : GenerationOptions)
    (es : List CompendiumEntry) (hp : o.preview = false)
    (he : o.compendiumEntries = some es) (hne : es.isEmpty = false) :
    ∃ r u w, compendiumTextOf o = "\n\nCOMPENDIUM REFERENCES:\n" ++ r ∧
      buildPrompt beat sc o
        = u ++ compendiumTextOf o ++ "\n" ++ w ++ "\n\nBEAT TO EXPAND:\n" ++ beat
          ++ "\n\nWrite the next 2-3 paragraphs:<|im_end|>\n<|im_start|>assistant\n" := by
  have hcomp : compendiumTextOf o
      = "\n\nCOMPENDIUM REFERENCES:\n" ++ String.join (es.map renderEntry) := by
    unfold compendiumTextOf
    rw [he]
    simp [hp, hne]
  have hbeq : (compendiumTextOf o == "") = false := by
    rw [hcomp]
    simp only [beq_eq_false_iff_ne, ne_eq]
    intro hcontra
    have h2 : ("\n\nCOMPENDIUM REFERENCES:\n").data ++ (String.join (es.map renderEntry)).data
        = [] := by
      have h3 := congrArg String.data hcontra
      rw [strData_append] at h3
      exact h3
    exact absurd (List.append_eq_nil.mp h2).1 (by decide)
  have hsplit : basePrompt beat sc o
      = ("<|im_start|>system\n" ++ systemPromptOf o ++ "<|im_end|>\n<|im_start|>user\n"
          ++ contextTextOf sc ++ proseTemplateTextOf o)
        ++ "\n\nBEAT TO EXPAND:"
        ++ ("\n" ++ beat
          ++ "\n\nWrite the next 2-3 paragraphs:<|im_end|>\n<|im_start|>assistant\n") := by
    apply strExt
    unfold basePrompt
    simp only [strData_append, List.append_assoc, List.cons_append, List.nil_append]
  have hsplitdata : (basePrompt beat sc o).data
      = ("<|im_start|>system\n" ++ systemPromptOf o ++ "<|im_end|>\n<|im_start|>user\n"
          ++ contextTextOf sc ++ proseTemplateTextOf o).data
        ++ ("\n\nBEAT TO EXPAND:").data
        ++ ("\n" ++ beat
          ++ "\n\nWrite the next 2-3 paragraphs:<|im_end|>\n<|im_start|>assistant\n").data := by
    rw [hsplit, strData_append, strData_append]
  obtain ⟨i, hi, hdrop⟩ := listIndexOf_append_found ("\n\nBEAT TO EXPAND:").data
    ("\n" ++ beat
      ++ "\n\nWrite the next 2-3 paragraphs:<|im_end|>\n<|im_start|>assistant\n").data
    ("<|im_start|>system\n" ++ systemPromptOf o ++ "<|im_end|>\n<|im_start|>user\n"
      ++ contextTextOf sc ++ proseTemplateTextOf o).data
  have hfound : strIndexOf (basePrompt beat sc o) "\n\nBEAT TO EXPAND:" = some i := by
    unfold strIndexOf
    rw [hsplitdata]
    exact hi
  have hbuild : buildPrompt beat sc o
      = String.mk ((basePrompt beat sc o).data.take i) ++ compendiumTextOf o ++ "\n"
        ++ String.mk ((basePrompt beat sc o).data.drop i) := by
    unfold buildPrompt spliceCompendium
    rw [hbeq, hfound]
    rfl
  refine ⟨String.join (es.map renderEntry),
    String.mk ((basePrompt beat sc o).data.take i),
    String.mk (("<|im_start|>system\n" ++ systemPromptOf o ++ "<|im_end|>\n<|im_start|>user\n"
      ++ contextTextOf sc ++ proseTemplateTextOf o).data.drop i), hcomp, ?_⟩
  rw [hbuild]
  apply strExt
  simp only [strData_mk, strData_append]
  rw [hsplitdata, hdrop]
  simp only [strData_append, List.append_assoc, List.cons_append, List.nil_append]

/-- Witness for C7 at a concrete non-preview call with one entry. -/
theorem buildPrompt_compendium_before_beat_witness :
    nonPreviewOpts.preview = false ∧
    nonPreviewOpts.compendiumEntries = some [{ title := some "T", body := some "B" }] ∧
    (([{ title := some "T", body := some "B" }] : List CompendiumEntry).isEmpty = false) ∧
    (∃ r u w, compendiumTextOf nonPreviewOpts = "\n\nCOMPENDIUM REFERENCES:\n" ++ r ∧
      buildPrompt "b" "" nonPreviewOpts
        = u ++ compendiumTextOf nonPreviewOpts ++ "\n" ++ w ++ "\n\nBEAT TO EXPAND:\n" ++ "b"
          ++ "\n\nWrite the next 2-3 paragraphs:<|im_end|>\n<|im_start|>assistant\n") :=
  ⟨rfl, rfl, rfl,
    buildPrompt_compendium_before_beat "b" "" nonPreviewOpts
      [{ title := some "T", body := some "B" }] rfl rfl rfl⟩

end Writingway
